import Mathlib

/-!
Shallow embedding of the adversarial-perturbation pipeline of the
srakrnxKU/adversarial-project repository (clustre and codes packages),
together with theorems checking the natural-language specification
against the code.  Tensors are modelled as lists of rationals; a batch
is a list of rows.  The deep-learning library is an external
collaborator: gradients returned by autodiff are passed in as explicit
arguments or abstract functions, exactly as the spec treats them.
-/

namespace Clustre

/-- Elementwise sign as in torch.sign: 1 on positives, -1 on negatives, 0 at 0. -/
def sign (x : ℚ) : ℚ := if 0 < x then 1 else if x < 0 then -1 else 0

/-- Scalar clamp as in torch.clamp with lower bound lo and upper bound hi. -/
def clamp (x lo hi : ℚ) : ℚ := max lo (min hi x)

/-- Clamp every entry of a vector. -/
def clampVec (v : List ℚ) (lo hi : ℚ) : List ℚ := v.map (fun x => clamp x lo hi)

/-- Mean over the batch dimension, as in Tensor.mean over dim 0: entry j is
the average of entry j across the rows.  `w` is the row width. -/
def meanDim0 (batch : List (List ℚ)) (w : Nat) : List ℚ :=
  (List.range w).map (fun j => (batch.map (fun r => r.getD j 0)).sum / (batch.length : ℚ))

/-- Dot product of two vectors, as in torch.dot. -/
def dot (a b : List ℚ) : ℚ := (List.zipWith (fun x y => x * y) a b).sum

/-- Embedding of fgsm_single_point (src/clustre/attacking/on_single_point/attack.py).
`grad` is the content of images.grad after loss.backward(): the input gradient of
the criterion loss at the unperturbed images, one row per batch element.  The code
computes perturb as sign of the batch-mean gradient times epsilon, clamps the
attacked image to the valid range, and returns the row-0 difference divided by
epsilon. -/
def fgsm_single_point (grad images : List (List ℚ)) (epsilon : ℚ) : List ℚ :=
  List.zipWith (fun a b => (a - b) / epsilon)
    (List.zipWith (fun a b => clamp (a + b) (-1) 1) (images.headD [])
      ((meanDim0 grad (images.headD []).length).map (fun g => sign g * epsilon)))
    (images.headD [])

/- Scalar clamp lemmas shared by the FGSM, PGD and MaxLoss invariants. -/

theorem abs_clamp_le {eps : ℚ} (x : ℚ) (heps : 0 ≤ eps) : |clamp x (-eps) eps| ≤ eps := by
  rw [clamp, abs_le]
  refine ⟨le_max_left _ _, max_le (by linarith) (min_le_left _ _)⟩

theorem clamp_mem_range (x : ℚ) : -1 ≤ clamp x (-1) 1 ∧ clamp x (-1) 1 ≤ 1 := by
  rw [clamp]
  refine ⟨le_max_left _ _, max_le (by norm_num) (min_le_left _ _)⟩

theorem abs_clamp_add_sub_le {o p : ℚ} (ho1 : -1 ≤ o) (ho2 : o ≤ 1) :
    |clamp (o + p) (-1) 1 - o| ≤ |p| := by
  have hp1 : -|p| ≤ p := neg_abs_le p
  have hp2 : p ≤ |p| := le_abs_self p
  rw [clamp, abs_le]
  rcases le_total (o + p) 1 with h1 | h1
  · rw [min_eq_right h1]
    rcases le_total (-1 : ℚ) (o + p) with h2 | h2
    · rw [max_eq_right h2]; constructor <;> linarith
    · rw [max_eq_left h2]; constructor <;> linarith
  · rw [min_eq_left h1]
    rw [max_eq_right (by norm_num : (-1 : ℚ) ≤ 1)]
    constructor <;> linarith

theorem abs_sign_le_one (x : ℚ) : |sign x| ≤ 1 := by
  rw [sign]
  split
  · norm_num
  · split <;> norm_num

theorem sign_two_mul (x : ℚ) : sign (2 * x) = sign x := by
  rw [sign, sign]
  rcases lt_trichotomy x 0 with h | h | h
  · rw [if_neg (by linarith), if_pos (by linarith), if_neg (by linarith), if_pos h]
  · subst h; norm_num
  · rw [if_pos (by linarith), if_pos h]

theorem abs_fgsm_elem_le {eps : ℚ} (heps : 0 < eps) :
    ∀ (img p : List ℚ), (∀ o ∈ img, -1 ≤ o ∧ o ≤ 1) → (∀ q ∈ p, |q| ≤ eps) →
    ∀ y ∈ List.zipWith (fun a b => (a - b) / eps)
        (List.zipWith (fun a b => clamp (a + b) (-1) 1) img p) img, |y| ≤ 1
  | [], p, _, _ => by simp
  | o :: img, [], _, _ => by simp
  | o :: img, q :: p, hrange, hq => by
    simp only [List.zipWith_cons_cons, List.mem_cons]
    rintro y (rfl | hy)
    · have ho := hrange o (List.mem_cons_self o img)
      have h1 : |clamp (o + q) (-1) 1 - o| ≤ |q| := abs_clamp_add_sub_le ho.1 ho.2
      have h2 : |q| ≤ eps := hq q (List.mem_cons_self q p)
      rw [abs_div, abs_of_pos heps, div_le_one heps]
      exact h1.trans h2
    · exact abs_fgsm_elem_le heps img p
        (fun o ho => hrange o (List.mem_cons_of_mem _ ho))
        (fun r hr => hq r (List.mem_cons_of_mem _ hr)) y hy

/-- One iteration of the pgd_single_point loop
(src/clustre/attacking/on_single_point/attack.py).  `gradFn` is the autodiff
collaborator: it returns the input gradient of the criterion loss at the
current images.  The code forms adversarial images by stepping with
step_size times the sign of the batch-mean gradient (broadcast over the
batch), clamps the perturbation to [-epsilon, epsilon], and clamps the
perturbed input to the valid range [-1, 1]. -/
def pgd_step (gradFn : List (List ℚ) → List (List ℚ)) (original : List (List ℚ))
    (step_size epsilon : ℚ) (images : List (List ℚ)) : List (List ℚ) :=
  List.zipWith (fun row orow =>
      List.zipWith (fun o pi => clamp (o + pi) (-1) 1) orow
        (List.zipWith (fun a o => clamp (a - o) (-epsilon) epsilon)
          (List.zipWith (fun a b => a + b) row
            ((meanDim0 (gradFn images) (original.headD []).length).map
              (fun g => step_size * sign g)))
          orow))
    images original

/-- State of the variable images in pgd_single_point after n iterations of
its loop; iteration starts from the original (cloned) images. -/
def pgd_single_point_iter (gradFn : List (List ℚ) → List (List ℚ))
    (original : List (List ℚ)) (step_size epsilon : ℚ) : Nat → List (List ℚ)
  | 0 => original
  | n + 1 => pgd_step gradFn original step_size epsilon
      (pgd_single_point_iter gradFn original step_size epsilon n)

theorem forall₂_zipWith_right {f : List ℚ → List ℚ → List ℚ}
    {R T : List ℚ → List ℚ → Prop} :
    ∀ {X Y : List (List ℚ)}, List.Forall₂ R X Y →
    (∀ x y, R x y → y ∈ Y → T (f x y) y) → List.Forall₂ T (List.zipWith f X Y) Y
  | _, _, List.Forall₂.nil, _ => by simp
  | _, _, List.Forall₂.cons hxy hrest, h => by
    rw [List.zipWith_cons_cons]
    exact List.Forall₂.cons (h _ _ hxy (List.mem_cons_self _ _))
      (forall₂_zipWith_right hrest
        (fun x y hr hm => h x y hr (List.mem_cons_of_mem _ hm)))

theorem pgd_row_invariant {eps : ℚ} (heps : 0 ≤ eps) (s : List ℚ) :
    ∀ (row orow : List ℚ), row.length = orow.length → orow.length ≤ s.length →
    (∀ o ∈ orow, -1 ≤ o ∧ o ≤ 1) →
    List.Forall₂ (fun x o => |x - o| ≤ eps ∧ -1 ≤ x ∧ x ≤ 1)
      (List.zipWith (fun o pi => clamp (o + pi) (-1) 1) orow
        (List.zipWith (fun a o => clamp (a - o) (-eps) eps)
          (List.zipWith (fun a b => a + b) row s) orow))
      orow
  | [], orow, hlen, _, _ => by
    have : orow = [] := List.length_eq_zero.mp hlen.symm
    subst this
    simp
  | a :: row, orow, hlen, hslen, hrange => by
    match orow, s with
    | [], _ => simp
    | o :: orow, [] => simp at hslen
    | o :: orow, q :: s =>
      simp only [List.zipWith_cons_cons]
      have ho := hrange o (List.mem_cons_self o orow)
      refine List.Forall₂.cons ?_ ?_
      · refine ⟨?_, (clamp_mem_range _).1, (clamp_mem_range _).2⟩
        exact (abs_clamp_add_sub_le ho.1 ho.2).trans (abs_clamp_le _ heps)
      · exact pgd_row_invariant heps s row orow (by simpa using hlen)
          (by simpa using hslen) (fun x hx => hrange x (List.mem_cons_of_mem _ hx))

/-- C3: for epsilon > 0, any step size and any number of iterations, the
images held by pgd_single_point after every iteration of its loop differ
from the original images by at most epsilon elementwise, and lie in the
valid input range [-1, 1]; this requires the original images themselves to
lie in [-1, 1] and the rows to share the width of the first row. -/
theorem pgd_single_point_perturbation_invariant
    (gradFn : List (List ℚ) → List (List ℚ)) (original : List (List ℚ))
    (step_size eps : ℚ) (heps : 0 < eps)
    (hw : ∀ orow ∈ original, orow.length = (original.headD []).length)
    (hrange : ∀ orow ∈ original, ∀ o ∈ orow, -1 ≤ o ∧ o ≤ 1) (n : Nat) :
    List.Forall₂ (List.Forall₂ (fun x o => |x - o| ≤ eps ∧ -1 ≤ x ∧ x ≤ 1))
      (pgd_single_point_iter gradFn original step_size eps n) original := by
  induction n with
  | zero =>
    rw [pgd_single_point_iter, List.forall₂_same]
    intro orow ho
    rw [List.forall₂_same]
    intro x hx
    have := hrange orow ho x hx
    exact ⟨by rw [sub_self, abs_zero]; exact heps.le, this.1, this.2⟩
  | succ n ih =>
    rw [pgd_single_point_iter, pgd_step]
    refine forall₂_zipWith_right ih ?_
    intro row orow hr hmem
    refine pgd_row_invariant heps.le _ row orow hr.length_eq ?_
      (hrange orow hmem)
    rw [meanDim0, List.length_map, List.length_map, List.length_range, hw orow hmem]

/-- Witness for the C3 theorem at a concrete input. -/
theorem pgd_single_point_perturbation_invariant_witness :
    (0 : ℚ) < 1/2 ∧
    List.Forall₂ (List.Forall₂ (fun x o => |x - o| ≤ (1/2 : ℚ) ∧ -1 ≤ x ∧ x ≤ 1))
      (pgd_single_point_iter (fun X => X) [[0, 3/4]] 1 (1/2) 3) [[0, 3/4]] := by
  have hw : ∀ orow ∈ [[(0 : ℚ), 3/4]], orow.length = ([[(0 : ℚ), 3/4]].headD []).length := by
    intro orow ho
    simp only [List.mem_singleton] at ho
    subst ho
    rfl
  have hrange : ∀ orow ∈ [[(0 : ℚ), 3/4]], ∀ o ∈ orow, -1 ≤ o ∧ o ≤ 1 := by
    intro orow ho o hmem
    simp only [List.mem_singleton] at ho
    subst ho
    simp only [List.mem_cons, List.mem_singleton, List.not_mem_nil, or_false] at hmem
    rcases hmem with rfl | rfl <;> norm_num
  exact ⟨by norm_num,
    pgd_single_point_perturbation_invariant (fun X => X) [[0, 3/4]] 1 (1/2)
      (by norm_num) hw hrange 3⟩

/-- C2 counterexample: with input gradient mean 1, image value 9/10 and
epsilon 3/10, fgsm_single_point does not return sign(gradient) * epsilon,
and the element of the returned tensor has absolute value different from
epsilon (the clamp to the valid range binds and the result is divided by
epsilon). -/
theorem fgsm_single_point_sign_times_eps_cex :
    fgsm_single_point [[1]] [[9/10]] (3/10) = [1/3] ∧
    fgsm_single_point [[1]] [[9/10]] (3/10) ≠ [sign 1 * (3/10)] ∧
    |(1/3 : ℚ)| ≠ (3/10 : ℚ) := by
  have h : fgsm_single_point [[1]] [[9/10]] (3/10) = [1/3] := by
    norm_num [fgsm_single_point, meanDim0, sign, clamp, List.range_succ]
  refine ⟨h, ?_, by norm_num [abs]⟩
  rw [h]
  norm_num [sign]

/-- C2 (amended): for epsilon > 0 and images whose first row lies in the
valid range [-1, 1], every element of the tensor returned by
fgsm_single_point has absolute value at most 1 (the code computes
sign(mean gradient) * epsilon, clamps the attacked image to [-1, 1], and
returns the difference divided by epsilon, so the normalized output is
bounded by 1, not by epsilon). -/
theorem fgsm_single_point_normalized_bound (grad images : List (List ℚ)) (epsilon : ℚ)
    (heps : 0 < epsilon) (hrange : ∀ x ∈ images.headD [], -1 ≤ x ∧ x ≤ 1) :
    ∀ y ∈ fgsm_single_point grad images epsilon, |y| ≤ 1 := by
  rw [fgsm_single_point]
  apply abs_fgsm_elem_le heps _ _ hrange
  intro q hq
  simp only [List.mem_map] at hq
  obtain ⟨g, _, rfl⟩ := hq
  rw [abs_mul, abs_of_pos heps]
  calc |sign g| * epsilon ≤ 1 * epsilon :=
        mul_le_mul_of_nonneg_right (abs_sign_le_one g) heps.le
    _ = epsilon := one_mul epsilon

/-- Witness for the amended C2 theorem at a concrete input. -/
theorem fgsm_single_point_normalized_bound_witness :
    (0 : ℚ) < 3/10 ∧ (∀ x ∈ ([[(9 : ℚ)/10]].headD []), -1 ≤ x ∧ x ≤ 1) ∧
    ∀ y ∈ fgsm_single_point [[1]] [[9/10]] (3/10), |y| ≤ 1 := by
  have hr : ∀ x ∈ ([[(9 : ℚ)/10]].headD []), -1 ≤ x ∧ x ≤ 1 := by
    intro x hx
    simp only [List.headD_cons, List.mem_singleton] at hx
    subst hx
    norm_num
  exact ⟨by norm_num, hr,
    fgsm_single_point_normalized_bound [[1]] [[9/10]] (3/10) (by norm_num) hr⟩

/-- One epoch of the maxloss optimization loop
(src/codes/attacking/on_single_point/cifar10/attack.py).  `stepFn e p` is
the perturbation value after the Adam collaborator applies its update at
epoch e to the current perturbation p; the code then clamps the
perturbation in place to [-epsilon, epsilon]. -/
def maxloss_epoch (stepFn : Nat → List ℚ → List ℚ) (epsilon : ℚ) (e : Nat)
    (perturb : List ℚ) : List ℚ :=
  clampVec (stepFn e perturb) (-epsilon) epsilon

/-- Perturbation held by maxloss for one image after n epochs of its inner
loop; it starts from torch.zeros of the image shape (width w). -/
def maxloss_perturb_iter (stepFn : Nat → List ℚ → List ℚ) (epsilon : ℚ)
    (w : Nat) : Nat → List ℚ
  | 0 => List.replicate w 0
  | n + 1 => maxloss_epoch stepFn epsilon n (maxloss_perturb_iter stepFn epsilon w n)

/-- C4: for epsilon > 0, any optimizer update rule and any number of
iterations, the maxloss perturbation has elementwise absolute value at
most epsilon after every iteration of the loop (the clamp runs after
every optimizer step), and hence the returned perturbation satisfies the
epsilon bound. -/
theorem maxloss_perturbation_bounded (stepFn : Nat → List ℚ → List ℚ)
    (epsilon : ℚ) (heps : 0 < epsilon) (w n : Nat) :
    ∀ x ∈ maxloss_perturb_iter stepFn epsilon w n, |x| ≤ epsilon := by
  induction n with
  | zero =>
    intro x hx
    rw [maxloss_perturb_iter] at hx
    rw [List.eq_of_mem_replicate hx, abs_zero]
    exact heps.le
  | succ n ih =>
    intro x hx
    rw [maxloss_perturb_iter, maxloss_epoch, clampVec] at hx
    obtain ⟨y, _, rfl⟩ := List.mem_map.mp hx
    exact abs_clamp_le y heps.le

/-- Witness for the C4 theorem at a concrete input. -/
theorem maxloss_perturbation_bounded_witness :
    (0 : ℚ) < 1/2 ∧
    ∀ x ∈ maxloss_perturb_iter (fun _ p => p.map (fun y => y + 1)) (1/2) 2 3,
      |x| ≤ (1/2 : ℚ) :=
  ⟨by norm_num,
    maxloss_perturbation_bounded (fun _ p => p.map (fun y => y + 1)) (1/2)
      (by norm_num) 2 3⟩

/-- Mutable state of the external model collaborator: the parameter values
and their gradient accumulator. -/
structure ModelState where
  params : List ℚ
  grads : List ℚ

/-- Embedding of model.zero_grad(): clears the parameter gradient buffers. -/
def zero_grad (s : ModelState) : ModelState :=
  { params := s.params, grads := s.grads.map (fun _ => 0) }

/-- Effect of loss.backward() on the model: the parameter gradient g the
autodiff collaborator produces is accumulated into the gradient buffers;
parameter values are untouched. -/
def backward_into_model (g : List ℚ) (s : ModelState) : ModelState :=
  { params := s.params, grads := List.zipWith (fun a b => a + b) s.grads g }

@[simp] theorem params_zero_grad (s : ModelState) : (zero_grad s).params = s.params := rfl

@[simp] theorem params_backward_into_model (g : List ℚ) (s : ModelState) :
    (backward_into_model g s).params = s.params := rfl

/-- Effect of one fgsm_single_point call: a single forward pass and a
single loss.backward(), which accumulates parameter gradients (the
function never zeroes them); no optimizer step over model parameters
exists in the function. -/
def fgsm_single_point_run (grad images : List (List ℚ)) (epsilon : ℚ)
    (paramGrad : List ℚ) (s : ModelState) : List ℚ × ModelState :=
  (fgsm_single_point grad images epsilon, backward_into_model paramGrad s)

/-- Effect of pgd_single_point on the model state, paired with the images
it iterates: every iteration calls model.zero_grad() and then
loss.backward(); no optimizer step over model parameters exists. -/
def pgd_single_point_run (gradFn : List (List ℚ) → List (List ℚ))
    (paramGrad : List (List ℚ) → List ℚ) (original : List (List ℚ))
    (step_size epsilon : ℚ) (s : ModelState) : Nat → List (List ℚ) × ModelState
  | 0 => (original, s)
  | n + 1 =>
    (pgd_step gradFn original step_size epsilon
        (pgd_single_point_run gradFn paramGrad original step_size epsilon s n).1,
      backward_into_model
        (paramGrad (pgd_single_point_run gradFn paramGrad original step_size epsilon s n).1)
        (zero_grad (pgd_single_point_run gradFn paramGrad original step_size epsilon s n).2))

/-- Effect of the maxloss inner loop on the model state, paired with the
perturbation: optimizer.zero_grad() only clears the perturbation gradient
(the Adam collaborator owns only the perturbation), loss.backward()
accumulates model parameter gradients, and optimizer.step() updates only
the perturbation. -/
def maxloss_run (stepFn : Nat → List ℚ → List ℚ) (paramGrad : Nat → List ℚ)
    (epsilon : ℚ) (w : Nat) (s : ModelState) : Nat → List ℚ × ModelState
  | 0 => (List.replicate w 0, s)
  | n + 1 =>
    (maxloss_epoch stepFn epsilon n (maxloss_run stepFn paramGrad epsilon w s n).1,
      backward_into_model (paramGrad n) (maxloss_run stepFn paramGrad epsilon w s n).2)

/-- C5: none of the three perturbation generators modifies the model
parameter values: FGSM, PGD and MaxLoss read and accumulate gradients but
never apply an optimizer step to the model parameters, so the parameter
vector after any run equals the one before. -/
theorem generators_preserve_model_params
    (grad images original : List (List ℚ)) (epsilon step_size eps2 eps3 : ℚ)
    (paramGrad : List ℚ) (gradFn : List (List ℚ) → List (List ℚ))
    (pgdParamGrad : List (List ℚ) → List ℚ)
    (stepFn : Nat → List ℚ → List ℚ) (mlParamGrad : Nat → List ℚ) (w : Nat)
    (s : ModelState) (n m : Nat) :
    (fgsm_single_point_run grad images epsilon paramGrad s).2.params = s.params ∧
    (pgd_single_point_run gradFn pgdParamGrad original step_size eps2 s n).2.params
      = s.params ∧
    (maxloss_run stepFn mlParamGrad eps3 w s m).2.params = s.params := by
  refine ⟨rfl, ?_, ?_⟩
  · induction n with
    | zero => rfl
    | succ n ih => rw [pgd_single_point_run]; simpa using ih
  · induction m with
    | zero => rfl
    | succ m ih => rw [maxloss_run]; simpa using ih

theorem map_const_eq_replicate {α β : Type} (l : List α) (b : β) :
    l.map (fun _ => b) = List.replicate l.length b := by
  induction l with
  | nil => rfl
  | cons x l ih => simp only [List.map_cons, List.length_cons, List.replicate_succ, ih]

/-- One training-step loss of k_reinforce
(src/clustre/reinforcing/cluster_based/reinforce.py).  `c` is the
per-example loss that the criterion with reduction disabled assigns to an
example of the concatenated batch; the code concatenates clean and
adversarial minibatches, builds the weight vector by a comprehension over
the index range, and back-propagates torch.dot of the per-example loss
vector with the weight vector. -/
def k_reinforce_step_loss (c : List ℚ × Nat → ℚ)
    (cleanBatch advBatch : List (List ℚ × Nat))
    (train_weight adversarial_weight : ℚ) : ℚ :=
  dot ((cleanBatch ++ advBatch).map c)
    ((List.range (cleanBatch.length + advBatch.length)).map
      (fun i => if i < cleanBatch.length then train_weight else adversarial_weight))

/-- C6: the scalar loss back-propagated in every k_reinforce training step
equals the dot product of the per-example loss vector of the concatenated
clean-then-adversarial batch with the weight vector assigning train_weight
to each clean example and adversarial_weight to each adversarial example. -/
theorem k_reinforce_step_loss_weighted_dot (c : List ℚ × Nat → ℚ)
    (cleanBatch advBatch : List (List ℚ × Nat)) (tw aw : ℚ) :
    k_reinforce_step_loss c cleanBatch advBatch tw aw =
      dot ((cleanBatch ++ advBatch).map c)
        (List.replicate cleanBatch.length tw ++ List.replicate advBatch.length aw) := by
  rw [k_reinforce_step_loss]
  congr 1
  rw [List.range_add, List.map_append, List.map_map]
  congr 1
  · have h : ∀ a ∈ List.range cleanBatch.length,
        (if a < cleanBatch.length then tw else aw) = tw := by
      intro a ha
      rw [if_pos (List.mem_range.mp ha)]
    rw [List.map_congr_left h, map_const_eq_replicate, List.length_range]
  · have h : ∀ a ∈ List.range advBatch.length,
        ((fun i => if i < cleanBatch.length then tw else aw) ∘
          (fun x => cleanBatch.length + x)) a = aw := by
      intro a _
      simp only [Function.comp_apply]
      rw [if_neg (by omega)]
    rw [List.map_congr_left h, map_const_eq_replicate, List.length_range]

/-- Embedding of the cluster-grouping loop of calculate_k_perturbs
(src/clustre/reinforcing/cluster_based/reinforce.py): the code iterates
over set(km_clusters), the distinct cluster ids present in the k-means
result. `assign` is the per-sample cluster-id vector returned by the
k-means collaborator. -/
def cluster_distinct_ids (assign : List Nat) : List Nat := assign.dedup

/-- Indices of the samples assigned to cluster v, as computed by
np.where(km_clusters == i)[0]. -/
def cluster_member_indices (assign : List Nat) (v : Nat) : List Nat :=
  (List.range assign.length).filter (fun j => assign.getD j 0 == v)

/-- Per-cluster index lists k_points accumulated by calculate_k_perturbs. -/
def calculate_k_points (assign : List Nat) : List (List Nat) :=
  (cluster_distinct_ids assign).map (cluster_member_indices assign)

theorem sum_map_add_nat (f g : Nat → Nat) :
    ∀ vs : List Nat, (vs.map (fun v => f v + g v)).sum = (vs.map f).sum + (vs.map g).sum
  | [] => rfl
  | v :: vs => by
    simp only [List.map_cons, List.sum_cons, sum_map_add_nat f g vs]
    omega

theorem sum_map_indicator {a : Nat} :
    ∀ {vs : List Nat}, vs.Nodup → a ∈ vs →
      (vs.map (fun v => if a = v then 1 else 0)).sum = 1
  | [], _, ha => absurd ha (List.not_mem_nil a)
  | v :: vs, hnd, ha => by
    obtain ⟨hv, hvs⟩ := List.nodup_cons.mp hnd
    simp only [List.map_cons, List.sum_cons]
    rcases List.mem_cons.mp ha with rfl | ha2
    · rw [if_pos rfl]
      have h : ∀ u ∈ vs, (if a = u then 1 else 0) = 0 := by
        intro u hu
        rw [if_neg ?_]
        intro he
        subst he
        exact hv hu
      rw [List.map_congr_left h, map_const_eq_replicate, List.sum_replicate, smul_zero]
      rfl
    · rw [if_neg ?_, sum_map_indicator hvs ha2]
      intro he
      subst he
      exact hv ha2

theorem sum_countP_eq_length (g : Nat → Nat) (vs : List Nat) (hnd : vs.Nodup) :
    ∀ l : List Nat, (∀ j ∈ l, g j ∈ vs) →
      (vs.map (fun v => l.countP (fun j => g j == v))).sum = l.length
  | [], _ => by
    simp only [List.countP_nil, List.length_nil]
    rw [map_const_eq_replicate, List.sum_replicate, smul_zero]
  | j :: t, h => by
    simp only [List.countP_cons, beq_iff_eq]
    rw [sum_map_add_nat]
    have h1 := sum_countP_eq_length g vs hnd t
      (fun x hx => h x (List.mem_cons_of_mem _ hx))
    simp only [beq_iff_eq] at h1
    rw [h1, sum_map_indicator hnd (h j (List.mem_cons_self j t)), List.length_cons]

/-- C8: given a cluster assignment whose ids are below k (the clustering
collaborator contract), the grouping computed by calculate_k_perturbs
partitions the samples: every emitted cluster id is in {0, ..., k-1}, the
per-cluster index lists are pairwise disjoint, their sizes sum to the
dataset size, and every emitted group is nonempty (an id with no members
simply does not appear). -/
theorem calculate_k_points_partition (assign : List Nat) (k : Nat)
    (hvals : ∀ x ∈ assign, x < k) :
    (∀ v ∈ cluster_distinct_ids assign, v < k) ∧
    List.Pairwise (fun l1 l2 => ∀ j ∈ l1, j ∉ l2) (calculate_k_points assign) ∧
    ((calculate_k_points assign).map List.length).sum = assign.length ∧
    ∀ l ∈ calculate_k_points assign, l ≠ [] := by
  refine ⟨?_, ?_, ?_, ?_⟩
  · intro v hv
    exact hvals v (List.mem_dedup.mp hv)
  · rw [calculate_k_points, List.pairwise_map, cluster_distinct_ids]
    refine List.Pairwise.imp ?_ assign.nodup_dedup
    intro a b hab j hja hjb
    rw [cluster_member_indices, List.mem_filter] at hja hjb
    exact hab ((beq_iff_eq.mp hja.2).symm.trans (beq_iff_eq.mp hjb.2))
  · rw [calculate_k_points, List.map_map, cluster_distinct_ids]
    have hlen : ∀ v, (List.length ∘ cluster_member_indices assign) v =
        (List.range assign.length).countP (fun j => assign.getD j 0 == v) := by
      intro v
      simp only [Function.comp_apply, cluster_member_indices]
      exact (List.countP_eq_length_filter _ _).symm
    rw [List.map_congr_left (fun v _ => hlen v)]
    rw [sum_countP_eq_length (fun j => assign.getD j 0) _ assign.nodup_dedup
      (List.range assign.length) ?_, List.length_range]
    intro j hj
    have hjl := List.mem_range.mp hj
    show assign.getD j 0 ∈ assign.dedup
    rw [List.mem_dedup, List.getD_eq_getElem assign 0 hjl]
    exact List.getElem_mem hjl
  · intro l hl
    rw [calculate_k_points, List.mem_map] at hl
    obtain ⟨v, hv, rfl⟩ := hl
    obtain ⟨i, hi, he⟩ := List.mem_iff_getElem.mp (List.mem_dedup.mp hv)
    apply List.ne_nil_of_mem (a := i)
    rw [cluster_member_indices, List.mem_filter]
    exact ⟨List.mem_range.mpr hi, beq_iff_eq.mpr (by rw [List.getD_eq_getElem assign 0 hi, he])⟩

/-- Witness for the C8 theorem at a concrete assignment. -/
theorem calculate_k_points_partition_witness :
    (∀ x ∈ [0, 1, 0], x < 2) ∧
    (∀ v ∈ cluster_distinct_ids [0, 1, 0], v < 2) ∧
    List.Pairwise (fun l1 l2 => ∀ j ∈ l1, j ∉ l2) (calculate_k_points [0, 1, 0]) ∧
    ((calculate_k_points [0, 1, 0]).map List.length).sum = 3 ∧
    ∀ l ∈ calculate_k_points [0, 1, 0], l ≠ [] := by
  have h := calculate_k_points_partition [0, 1, 0] 2 (by decide)
  exact ⟨by decide, h.1, h.2.1, h.2.2.1, h.2.2.2⟩

/-- Validation behaviour of fgsm_single_point
(src/clustre/attacking/on_single_point/attack.py): the body contains no
configuration check; it always performs exactly one forward/backward model
evaluation and returns a perturbation.  The Except layer records whether a
run aborts; the Nat counts model evaluations. -/
def fgsm_single_point_checked (grad images : List (List ℚ)) (epsilon : ℚ) :
    Except String (List ℚ) × Nat :=
  (Except.ok (fgsm_single_point grad images epsilon), 1)

/-- Validation behaviour of calculate_k_perturbs
(src/clustre/reinforcing/cluster_based/reinforce.py): the function performs
no explicit check of k; it hands k to the clustering collaborator, whose
fit may abort on an invalid k, before any attack runs, and only afterwards
evaluates the model once per distinct cluster.  The argument is the
outcome of the collaborator; the Nat counts model evaluations. -/
def calculate_k_perturbs_checked (kmeansFit : Except String (List Nat)) :
    Except String (List (List Nat)) × Nat :=
  match kmeansFit with
  | Except.error e => (Except.error e, 0)
  | Except.ok assign =>
    (Except.ok (calculate_k_points assign), (cluster_distinct_ids assign).length)

/-- C7 counterexample: with the invalid configuration epsilon = -3/10 < 0,
fgsm_single_point does not fail fast at setup: it performs one model
evaluation and returns a perturbation normally. -/
theorem fgsm_no_epsilon_validation_cex :
    (-(3/10) : ℚ) < 0 ∧
    (fgsm_single_point_checked [[1]] [[0]] (-(3/10))).1 =
      Except.ok (fgsm_single_point [[1]] [[0]] (-(3/10))) ∧
    (fgsm_single_point_checked [[1]] [[0]] (-(3/10))).2 = 1 :=
  ⟨by norm_num, rfl, rfl⟩

/-- C7 (amended): the pipeline performs no configuration validation of its
own: for any negative epsilon, fgsm_single_point still runs one model
evaluation and returns a perturbation, while for an invalid k,
calculate_k_perturbs aborts only because the external clustering
collaborator fails, which does happen before any model evaluation. -/
theorem pipeline_validation_behaviour (grad images : List (List ℚ))
    (epsilon : ℚ) (heps : epsilon < 0) (e : String) :
    (fgsm_single_point_checked grad images epsilon).1 =
      Except.ok (fgsm_single_point grad images epsilon) ∧
    (fgsm_single_point_checked grad images epsilon).2 = 1 ∧
    (calculate_k_perturbs_checked (Except.error e)).1 = Except.error e ∧
    (calculate_k_perturbs_checked (Except.error e)).2 = 0 :=
  ⟨rfl, rfl, rfl, rfl⟩

/-- Witness for the amended C7 theorem at a concrete input. -/
theorem pipeline_validation_behaviour_witness :
    (-(1/2) : ℚ) < 0 ∧
    (fgsm_single_point_checked [[1]] [[1/2]] (-(1/2))).1 =
      Except.ok (fgsm_single_point [[1]] [[1/2]] (-(1/2))) ∧
    (fgsm_single_point_checked [[1]] [[1/2]] (-(1/2))).2 = 1 ∧
    (calculate_k_perturbs_checked (Except.error "bad k")).1 =
      Except.error "bad k" ∧
    (calculate_k_perturbs_checked (Except.error "bad k")).2 = 0 := by
  have h := pipeline_validation_behaviour [[1]] [[1/2]] (-(1/2)) (by norm_num) "bad k"
  exact ⟨by norm_num, h.1, h.2.1, h.2.2.1, h.2.2.2⟩

/-- Gradient buffer of a fresh tensor of the same shape (torch starts the
accumulator at zero). -/
def zeros_like (b : List (List ℚ)) : List (List ℚ) := b.map (fun r => r.map (fun _ => 0))

/-- Gradient accumulation performed by loss.backward(): the new input
gradient is added elementwise onto whatever the buffer already holds. -/
def add_grads (a b : List (List ℚ)) : List (List ℚ) :=
  List.zipWith (List.zipWith (fun x y => x + y)) a b

/-- One call of fgsm_single_point on a tensor object whose gradient
accumulator currently holds acc: the function never zeroes the buffer, so
loss.backward() adds the fresh input gradient g onto acc, and the
perturbation is computed from the accumulated buffer.  Returns the
perturbation and the buffer left behind. -/
def fgsm_single_point_call (g images : List (List ℚ)) (epsilon : ℚ)
    (acc : List (List ℚ)) : List ℚ × List (List ℚ) :=
  (fgsm_single_point (add_grads acc g) images epsilon, add_grads acc g)

theorem zipWith_map_zero_add :
    ∀ r : List ℚ, List.zipWith (fun x y => x + y) (r.map (fun _ => 0)) r = r
  | [] => rfl
  | x :: r => by
    simp only [List.map_cons, List.zipWith_cons_cons, zero_add,
      zipWith_map_zero_add r]

theorem add_grads_zeros_like :
    ∀ b : List (List ℚ), add_grads (zeros_like b) b = b
  | [] => rfl
  | r :: b => by
    have h := add_grads_zeros_like b
    rw [add_grads, zeros_like] at h ⊢
    simp only [List.map_cons, List.zipWith_cons_cons, zipWith_map_zero_add r, h]

theorem getD_zipWith_self_add :
    ∀ (r : List ℚ) (j : Nat),
      (List.zipWith (fun x y => x + y) r r).getD j 0 = 2 * r.getD j 0
  | [], j => by simp [List.getD]
  | x :: r, 0 => by simp [List.getD, two_mul]
  | x :: r, j + 1 => by
    simp only [List.zipWith_cons_cons, List.getD_cons_succ]
    exact getD_zipWith_self_add r j

theorem fgsm_single_point_double_grad (g images : List (List ℚ)) (eps : ℚ) :
    fgsm_single_point (add_grads g g) images eps =
      fgsm_single_point g images eps := by
  rw [fgsm_single_point, fgsm_single_point]
  have hp : (meanDim0 (add_grads g g) (images.headD []).length).map
      (fun x => sign x * eps)
      = (meanDim0 g (images.headD []).length).map (fun x => sign x * eps) := by
    rw [meanDim0, meanDim0, List.map_map, List.map_map]
    apply List.map_congr_left
    intro j _
    simp only [Function.comp_apply]
    have h1 : add_grads g g = g.map (fun r => List.zipWith (fun x y => x + y) r r) :=
      List.zipWith_same _ g
    rw [h1, List.map_map, List.length_map]
    have h2 : ∀ r ∈ g,
        ((fun r => r.getD j 0) ∘ (fun r => List.zipWith (fun x y => x + y) r r)) r =
          2 * r.getD j 0 := by
      intro r _
      simp only [Function.comp_apply]
      exact getD_zipWith_self_add r j
    rw [List.map_congr_left h2, List.sum_map_mul_left, mul_div_assoc, sign_two_mul]
  rw [hp]

/-- C9: running fgsm_single_point twice with the same model, inputs,
labels and epsilon yields elementwise-identical perturbation tensors.
The only hidden state the call leaves behind is the gradient buffer of
the input tensor, which the function never zeroes; the second backward
therefore accumulates the same gradient on top of the first, and the
doubled gradient has the same sign, so the second result equals the
first. -/
theorem fgsm_single_point_deterministic (g images : List (List ℚ)) (epsilon : ℚ) :
    (fgsm_single_point_call g images epsilon
        (fgsm_single_point_call g images epsilon (zeros_like g)).2).1 =
      (fgsm_single_point_call g images epsilon (zeros_like g)).1 := by
  simp only [fgsm_single_point_call]
  rw [add_grads_zeros_like]
  exact fgsm_single_point_double_grad g images epsilon

/-- Embedding of fgsm from src/codes/attacking/on_single_point/cifar10/attack.py.
`gradFn` returns, per image, the input gradient of criterion(model(image), label)
computed by the autodiff collaborator; the code negates the loss before backward,
reassigns epsilon to 1 without ever using it again, and returns the raw sign of
the accumulated gradient with no epsilon scaling and no clamping. -/
def fgsm_codes (gradFn : List ℚ → List ℚ) (dataset : List (List ℚ)) (epsilon : ℚ) :
    List (List ℚ) :=
  dataset.map (fun image => ((gradFn image).map (fun x => -x)).map sign)

theorem sign_neg (x : ℚ) : sign (-x) = -(sign x) := by
  rw [sign, sign]
  rcases lt_trichotomy x 0 with h | h | h
  · rw [if_pos (show (0 : ℚ) < -x by linarith), if_neg (show ¬(0 : ℚ) < x by linarith),
      if_pos h]
    norm_num
  · subst h
    norm_num
  · rw [if_neg (show ¬(0 : ℚ) < -x by linarith), if_pos (show (-x : ℚ) < 0 by linarith),
      if_pos h]

/-- C10: the codes-variant fgsm is independent of its epsilon argument
(epsilon is reassigned internally and never used), and the perturbation
returned per image is the elementwise sign of the gradient of the negated
loss, i.e. the negative of the sign of the loss gradient, with no epsilon
scaling and no clamping. -/
theorem fgsm_codes_ignores_epsilon (gradFn : List ℚ → List ℚ)
    (dataset : List (List ℚ)) (e1 e2 : ℚ) :
    fgsm_codes gradFn dataset e1 = fgsm_codes gradFn dataset e2 ∧
    fgsm_codes gradFn dataset e1 =
      dataset.map (fun image => (gradFn image).map (fun x => -(sign x))) := by
  refine ⟨rfl, ?_⟩
  rw [fgsm_codes]
  apply List.map_congr_left
  intro img _
  rw [List.map_map]
  apply List.map_congr_left
  intro x _
  exact sign_neg x

/-- Embedding of AdversarialDataset._get_nth_perturb
(src/clustre/reinforcing/cluster_based/reinforce.py): iterate over
zip(targets, perturbs) and return the perturbation j of the first pair
whose target list i satisfies the test i in targets; the index n plays no
role in the loop body. -/
def get_nth_perturb_loop (targets : List (List Nat)) :
    List (List Nat × List ℚ) → Option (List ℚ)
  | [] => none
  | (i, j) :: rest =>
    if i ∈ targets then some j else get_nth_perturb_loop targets rest

/-- Lookup performed by AdversarialDataset._get_nth_perturb(n). -/
def get_nth_perturb (n : Nat) (targets : List (List Nat)) (perturbs : List (List ℚ)) :
    Option (List ℚ) :=
  get_nth_perturb_loop targets (targets.zip perturbs)

/-- Data held by an AdversarialDataset: samples, per-cluster target index
lists, per-cluster representative perturbations, and the density
multiplier. -/
structure AdversarialDataset where
  data : List (List ℚ × Nat)
  targets : List (List Nat)
  perturbs : List (List ℚ)
  density : ℚ

/-- Embedding of AdversarialDataset.__getitem__(idx): fetch the sample,
look its perturbation up via _get_nth_perturb, and return the input plus
density times the perturbation, with the label. -/
def AdversarialDataset.getitem (d : AdversarialDataset) (idx : Nat) :
    Option (List ℚ × Nat) :=
  match d.data.get? idx, get_nth_perturb idx d.targets d.perturbs with
  | some (X, y), some p =>
      some (List.zipWith (fun a b => a + d.density * b) X p, y)
  | _, _ => none

/-- C1: on the failing input below, __getitem__ adds the representative
perturbation of the first cluster instead of the one matching the
cluster of the sample: sample 1 lies in the target list [1], whose
perturbation is [2], yet the code returns input plus density times [1],
because _get_nth_perturb tests i in self.targets, which already holds for
the first zip pair, and never consults n. -/
theorem adversarial_dataset_getitem_bug :
    AdversarialDataset.getitem
        { data := [([0], 0), ([0], 1)], targets := [[0], [1]],
          perturbs := [[1], [2]], density := 1 } 1 = some ([1], 1) ∧
    AdversarialDataset.getitem
        { data := [([0], 0), ([0], 1)], targets := [[0], [1]],
          perturbs := [[1], [2]], density := 1 } 1 ≠ some ([2], 1) := by
  have h : AdversarialDataset.getitem
      { data := [([0], 0), ([0], 1)], targets := [[0], [1]],
        perturbs := [[1], [2]], density := 1 } 1 = some ([1], 1) := by
    simp only [AdversarialDataset.getitem, get_nth_perturb, get_nth_perturb_loop,
      List.zip, List.zipWith, List.get?]
    norm_num
  exact ⟨h, by rw [h]; intro he; simp only [Option.some.injEq, Prod.mk.injEq,
    List.cons.injEq] at he; exact absurd he.1.1 (by norm_num)⟩

end Clustre
